import Mathlib

/- Verification of the book-extractor program: the text cleaner, the chapter
   segmenter and the persistence layer are modelled as pure Lean functions,
   translated from the source, and the specified properties are settled
   against them. -/

set_option maxHeartbeats 1000000

namespace BookExtractor

/-- Whitespace characters of the cleaning step: the ASCII range of the
regex class of whitespace used by the source. -/
def isPySpace (c : Char) : Bool :=
  c == ' ' || c == '\t' || c == '\n' || c == '\r' ||
  Char.toNat c == 11 || Char.toNat c == 12

/-- Accented Spanish letters listed explicitly in the source's allow-list
regex (they are also word characters there). -/
def isSpanishLetter (c : Char) : Bool :=
  c == 'á' || c == 'é' || c == 'í' || c == 'ó' || c == 'ú' ||
  c == 'Á' || c == 'É' || c == 'Í' || c == 'Ó' || c == 'Ú' ||
  c == 'ñ' || c == 'Ñ'

/-- Word characters of the model: ASCII letters, digits, underscore and the
accented letters of the target language (the source's regex uses the word
class over this alphabet). -/
def isWordChar (c : Char) : Bool :=
  ('a' ≤ c && c ≤ 'z') || ('A' ≤ c && c ≤ 'Z') ||
  ('0' ≤ c && c ≤ '9') || c == '_' || isSpanishLetter c

/-- Punctuation kept by the allow-list regex of clean_text: the class holds
basic punctuation, the inverted marks, the ASCII double quote (written three
times in the source class) and the escaped apostrophe. -/
def isAllowedPunct (c : Char) : Bool :=
  c == '.' || c == ',' || c == '!' || c == '?' || c == '¡' || c == '¿' ||
  c == ':' || c == ';' || c == '(' || c == ')' || c == '-' || c == '"' ||
  c == Char.ofNat 39

/-- A character survives the deleting substitution of clean_text iff it is a
word character, whitespace, or allowed punctuation. -/
def isAllowedChar (c : Char) : Bool :=
  isWordChar c || isPySpace c || isAllowedPunct c

/-- One pass of the whitespace-collapsing substitution: every maximal run of
whitespace becomes a single space. The Boolean records whether the previous
character was whitespace (a run already emitted its single space). -/
def collapseWsAux : Bool → List Char → List Char
  | _, [] => []
  | true, c :: cs =>
    if isPySpace c then collapseWsAux true cs else c :: collapseWsAux false cs
  | false, c :: cs =>
    if isPySpace c then ' ' :: collapseWsAux true cs else c :: collapseWsAux false cs

def collapseWs (l : List Char) : List Char := collapseWsAux false l

/-- Strip of leading and trailing whitespace, as the final strip call of
clean_text and the strip test of the fallback branch of the segmenter. -/
def pyStrip (l : List Char) : List Char :=
  ((l.dropWhile isPySpace).reverse.dropWhile isPySpace).reverse

/-- Model of clean_text: collapse every whitespace run to one space, delete
every character outside the allow-list, then strip. Python None and the
empty string both take the early return of the source; both are the empty
list here. -/
def clean_text (l : List Char) : List Char :=
  if l.isEmpty then [] else pyStrip ((collapseWs l).filter isAllowedChar)

/-- Lower-casing as the case-insensitive flag of the marker regex sees it:
ASCII letters plus the accented capitals. -/
def pyLower (c : Char) : Char :=
  if c == 'Á' then 'á' else if c == 'É' then 'é' else if c == 'Í' then 'í'
  else if c == 'Ó' then 'ó' else if c == 'Ú' then 'ú'
  else if c == 'Ñ' then 'ñ' else c.toLower

def matchesAt : List Char → List Char → Bool
  | [], _ => true
  | _ :: _, [] => false
  | p :: ps, c :: cs => p == c && matchesAt ps cs

/-- Substring search, the semantics of the regex search applied by the
marker filter. -/
def containsSeq (pat : List Char) : List Char → Bool
  | [] => matchesAt pat []
  | c :: cs => matchesAt pat (c :: cs) || containsSeq pat cs

def isRomanChar (c : Char) : Bool := c == 'i' || c == 'v' || c == 'x'

def isDigitChar (c : Char) : Bool := '0' ≤ c && c ≤ '9'

/-- Search for a character of the class immediately followed by a period;
this is exactly when one-or-more of the class followed by a period matches
somewhere in the string. -/
def hasClassThenDot (p : Char → Bool) : List Char → Bool
  | c :: d :: rest => (p c && d == '.') || hasClassThenDot p (d :: rest)
  | _ => false

/-- Search model of the chapter-marker pattern, case-insensitive: the word
for chapter with either accent, a Roman-numeral character followed by a
period, a digit followed by a period, or the words for part or book. -/
def markerMatches (s : String) : Bool :=
  let low := s.data.map pyLower
  containsSeq "capitulo".data low || containsSeq "capítulo".data low ||
  hasClassThenDot isRomanChar low || hasClassThenDot isDigitChar low ||
  containsSeq "parte".data low || containsSeq "libro".data low

/-- Element kinds searched for markers by the segmenter. -/
def isMarkerName (n : String) : Bool :=
  n == "h1" || n == "h2" || n == "h3" || n == "div" || n == "p"

/-- A parsed HTML element of the flat document model: its tag name and its
own text. Structural equality of elements models the structural equality
the parsing library uses on tags. -/
structure Elem where
  name : String
  text : String
deriving DecidableEq

/-- A marker candidate: heading, div or paragraph whose text matches the
chapter-indicator pattern. -/
def isMarker (e : Elem) : Bool := isMarkerName e.name && markerMatches e.text

/-- A chapter record produced by segmentation. -/
structure Chapter where
  numero : Nat
  titulo : List Char
  contenido : List Char
deriving DecidableEq

/-- Blank-line separator joining content fragments. -/
def blankSep : List Char := ['\n', '\n']

def indexed : Nat → List Elem → List (Nat × Elem)
  | _, [] => []
  | n, e :: rest => (n, e) :: indexed (n + 1) rest

/-- All markers of the document, in document order, each with its position. -/
def markersOf (doc : List Elem) : List (Nat × Elem) :=
  (indexed 0 doc).filter fun p => isMarker p.2

/-- Walk of the while-loop body: scan elements in document order, stop at
the first element structurally equal to the next marker, keep each paragraph
whose cleaned text is nonempty and longer than 50 characters. -/
def collectContent (stop : Elem) : List Elem → List (List Char)
  | [] => []
  | e :: rest =>
    if e = stop then []
    else if e.name == "p" then
      let t := clean_text e.text.data
      if !t.isEmpty && t.length > 50 then t :: collectContent stop rest
      else collectContent stop rest
    else collectContent stop rest

/-- Content gathered for the marker with zero-based index k at document
position pos. For the last marker the source's while-condition is a
conditional expression whose else-branch is None; by operator precedence the
whole condition is then None, so the loop body never runs and no content is
gathered. -/
def contentAt (doc : List Elem) (markers : List (Nat × Elem)) (k pos : Nat) :
    List (List Char) :=
  match markers.get? (k + 1) with
  | some nxt => collectContent nxt.2 (doc.drop (pos + 1))
  | none => []

/-- Loop over the enumerated markers: chapter number is the one-based marker
index; a chapter is appended only when its content list is nonempty. -/
def chaptersFrom (doc : List Elem) (markers : List (Nat × Elem)) :
    Nat → List (Nat × Elem) → List Chapter
  | _, [] => []
  | k, (pos, m) :: rest =>
    let content := contentAt doc markers k pos
    let tail := chaptersFrom doc markers (k + 1) rest
    if content.isEmpty then tail
    else ⟨k + 1, clean_text m.text.data, List.intercalate blankSep content⟩ :: tail

/-- Fallback when no marker is found: one chapter from every paragraph whose
raw text is not whitespace-only, the cleaned texts joined by blank lines. -/
def fallbackChapters (doc : List Elem) : List Chapter :=
  let content := (doc.filter fun e =>
    e.name == "p" && !(pyStrip e.text.data).isEmpty).map fun e => e.text.data
  if content.isEmpty then []
  else [⟨1, "Texto completo".data, List.intercalate blankSep (content.map clean_text)⟩]

/-- Model of extract_chapters over the flat document model; the absent or
empty HTML input parses to the empty document. -/
def extract_chapters (doc : List Elem) : List Chapter :=
  let markers := markersOf doc
  if markers.isEmpty then fallbackChapters doc
  else chaptersFrom doc markers 0 markers

/-- Scope walked for the marker with zero-based index k at position pos: the
elements after the marker up to (excluding) the next marker when there is
one, to the document end otherwise. -/
def markerScope (doc : List Elem) (markers : List (Nat × Elem)) (k pos : Nat) :
    List Elem :=
  match markers.get? (k + 1) with
  | some nxt => (doc.drop (pos + 1)).takeWhile fun e => decide (e ≠ nxt.2)
  | none => doc.drop (pos + 1)

/-- Content of the fallback chapter as worded from the behaviour: the cleaned
text of every paragraph whose raw text is not whitespace-only, joined with
the blank-line separator. -/
def specFallbackContent (doc : List Elem) : List Char :=
  List.intercalate blankSep
    ((doc.filter fun e => e.name == "p" && !(pyStrip e.text.data).isEmpty).map
      fun e => clean_text e.text.data)

/-- A persisted book row: generated key, title, author, extraction
timestamp, source url. -/
structure BookRow where
  id : Nat
  titulo : String
  autor : String
  fecha : Nat
  url : String
deriving DecidableEq

/-- A persisted chapter row: generated key, owning book, number, title,
content. -/
structure ChapterRow where
  id : Nat
  libroId : Nat
  numero : Nat
  titulo : List Char
  contenido : List Char
deriving DecidableEq

/-- The two tables of the store plus the generated-key counters. -/
structure DB where
  libros : List BookRow
  capitulos : List ChapterRow
  nextLibroId : Nat
  nextCapId : Nat
deriving DecidableEq

/-- The chapter-insert loop of save_to_database. Inserting a row that
violates the unique constraint on (owning book, number) raises the library
error the source catches, reported here as failure of the whole loop. -/
def insertCaps (existing : List ChapterRow) (lid nid : Nat) :
    List Chapter → Option (List ChapterRow × Nat)
  | [] => some ([], nid)
  | ch :: rest =>
    if existing.any fun r => r.libroId == lid && r.numero == ch.numero then none
    else
      match insertCaps
          (existing ++ [⟨nid, lid, ch.numero, ch.titulo, ch.contenido⟩])
          lid (nid + 1) rest with
      | some (rows, n2) => some (⟨nid, lid, ch.numero, ch.titulo, ch.contenido⟩ :: rows, n2)
      | none => none

/-- Model of save_to_database: duplicate check on the source url first, then
the book insert and the chapter inserts committed together; a library error
during the chapter loop rolls the whole uncommitted transaction back and the
call returns false instead of raising. -/
def save_to_database (db : DB) (title author url : String) (now : Nat)
    (chapters : List Chapter) : DB × Bool :=
  if db.libros.any fun b => b.url == url then (db, false)
  else
    match insertCaps db.capitulos db.nextLibroId db.nextCapId chapters with
    | some (rows, nid2) =>
      ({ libros := db.libros ++ [⟨db.nextLibroId, title, author, now, url⟩],
         capitulos := db.capitulos ++ rows,
         nextLibroId := db.nextLibroId + 1,
         nextCapId := nid2 }, true)
    | none => (db, false)

/-- Duplicate chapter number inside one batch: the realisable violation of
the unique constraint checked by the chapter-insert loop. -/
def hasDupNumero : List Chapter → Bool
  | [] => false
  | c :: rest => (rest.any fun d => d.numero == c.numero) || hasDupNumero rest

/-- Model of extract_book: fetch, then segment, then persist. The fetch
result is passed in (the transport is an external collaborator); a failed
fetch is the absent value, and the falsy empty content parses to the empty
document. An absent fetch result and an empty segmentation short-circuit to
failure without touching the store. -/
def extract_book (db : DB) (fetched : Option (List Elem))
    (title author url : String) (now : Nat) : DB × Bool :=
  match fetched with
  | none => (db, false)
  | some doc =>
    let chapters := extract_chapters doc
    if chapters.isEmpty then (db, false)
    else save_to_database db title author url now chapters

/-- Connection state seen by a query: a usable handle over the tables, or a
library error raised during execution. -/
inductive Conn where
  | ok : DB → Conn
  | failed : String → Conn

def insertByFechaDesc (b : BookRow) : List BookRow → List BookRow
  | [] => [b]
  | c :: rest =>
    if c.fecha ≤ b.fecha then b :: c :: rest else c :: insertByFechaDesc b rest

/-- Order of the book listing: newest extraction first. -/
def sortByFechaDesc (l : List BookRow) : List BookRow :=
  l.foldr insertByFechaDesc []

def insertByNumeroAsc (r : ChapterRow) : List ChapterRow → List ChapterRow
  | [] => [r]
  | c :: rest =>
    if r.numero ≤ c.numero then r :: c :: rest else c :: insertByNumeroAsc r rest

/-- Order of the chapter listing: ascending chapter number. -/
def sortByNumeroAsc (l : List ChapterRow) : List ChapterRow :=
  l.foldr insertByNumeroAsc []

/-- Model of list_books: the select over books newest-first; a library error
is caught and the empty list is returned instead. -/
def list_books (conn : Conn) : List (Nat × String × String × Nat) :=
  match conn with
  | .ok db => (sortByFechaDesc db.libros).map fun b => (b.id, b.titulo, b.autor, b.fecha)
  | .failed _ => []

/-- Model of get_book_chapters: the select of one book's chapters ordered by
number; a library error is caught and the empty list is returned instead. -/
def get_book_chapters (conn : Conn) (lid : Nat) :
    List (Nat × List Char × List Char) :=
  match conn with
  | .ok db =>
    (sortByNumeroAsc (db.capitulos.filter fun r => r.libroId == lid)).map
      fun r => (r.numero, r.titulo, r.contenido)
  | .failed _ => []

/-- A document with exactly one marker, followed by one paragraph whose
cleaned text is 60 characters long. -/
def c1doc : List Elem :=
  [⟨"h2", "Capítulo 1"⟩, ⟨"p", String.mk (List.replicate 60 'a')⟩]

/-- Three markers: the first followed only by a short paragraph, the second
by a long one, the third last in the document. -/
def gapDoc : List Elem :=
  [⟨"h2", "Capítulo 1."⟩, ⟨"p", "tiny"⟩,
   ⟨"h2", "Capítulo 2."⟩, ⟨"p", String.mk (List.replicate 55 'b')⟩,
   ⟨"h2", "Capítulo 3."⟩, ⟨"p", String.mk (List.replicate 55 'c')⟩]

/-- No markers; one paragraph whose cleaned text is empty but whose raw text
is not whitespace-only, then a normal paragraph. -/
def c7doc : List Elem :=
  [⟨"p", "@@@"⟩, ⟨"p", "hello there friend"⟩]

/-- The freshly initialised store. -/
def emptyDB : DB := ⟨[], [], 1, 1⟩

/-- Adjacent-pair relation of the whitespace-run property: of two consecutive
characters at least one is not whitespace. -/
def wsRel (a b : Char) : Prop := isPySpace a = false ∨ isPySpace b = false

instance : DecidableRel wsRel := fun a b =>
  inferInstanceAs (Decidable (isPySpace a = false ∨ isPySpace b = false))

/-- No run of two or more whitespace characters anywhere in the list. -/
def NoWsRun (l : List Char) : Prop := List.Chain' wsRel l

/-- Executable check for NoWsRun. -/
def noWsRunB : List Char → Bool
  | [] => true
  | [_] => true
  | a :: b :: rest => (!isPySpace a || !isPySpace b) && noWsRunB (b :: rest)

instance (l : List Char) : Decidable (NoWsRun l) :=
  decidable_of_iff (noWsRunB l = true) (by
    induction l with
    | nil => simp [noWsRunB, NoWsRun]
    | cons a tail ih =>
      cases tail with
      | nil => simp [noWsRunB, NoWsRun]
      | cons b rest =>
        rw [NoWsRun, List.chain'_cons]
        rw [NoWsRun] at ih
        simp only [noWsRunB, Bool.and_eq_true, Bool.or_eq_true, Bool.not_eq_true']
        rw [ih]
        rfl)

/-- The head, when present, is not whitespace. -/
def HeadNoWs (l : List Char) : Prop := ∀ c ∈ l.head?, isPySpace c = false

theorem pyStrip_contiguous (l : List Char) : pyStrip l <:+: l := by
  unfold pyStrip
  have h1 : (l.dropWhile isPySpace).reverse.dropWhile isPySpace <:+
      (l.dropWhile isPySpace).reverse := List.dropWhile_suffix _
  have h2 : ((l.dropWhile isPySpace).reverse.dropWhile isPySpace).reverse <+:
      l.dropWhile isPySpace := by
    rw [← List.reverse_suffix]
    simpa using h1
  exact h2.isInfix.trans (List.dropWhile_suffix _).isInfix

theorem mem_pyStrip {c : Char} {l : List Char} (h : c ∈ pyStrip l) : c ∈ l :=
  (pyStrip_contiguous l).sublist.subset h

theorem mem_collapseWsAux {c : Char} {l : List Char} :
    ∀ b : Bool, c ∈ collapseWsAux b l → c = ' ' ∨ c ∈ l := by
  induction l with
  | nil => intro b h; cases b <;> simp [collapseWsAux] at h
  | cons d ds ih =>
    intro b h
    by_cases hd : isPySpace d = true
    · cases b with
      | true =>
        simp only [collapseWsAux, hd, if_true] at h
        rcases ih true h with h1 | h1
        · exact Or.inl h1
        · exact Or.inr (List.mem_cons_of_mem _ h1)
      | false =>
        simp only [collapseWsAux, hd, if_true] at h
        rcases List.mem_cons.mp h with h1 | h1
        · exact Or.inl h1
        · rcases ih true h1 with h2 | h2
          · exact Or.inl h2
          · exact Or.inr (List.mem_cons_of_mem _ h2)
    · have hd' : isPySpace d = false := by simpa using hd
      cases b <;> simp only [collapseWsAux, hd', if_false, Bool.false_eq_true] at h <;>
        rcases List.mem_cons.mp h with h1 | h1
      · exact Or.inr (h1 ▸ List.mem_cons_self d ds)
      · rcases ih false h1 with h2 | h2
        · exact Or.inl h2
        · exact Or.inr (List.mem_cons_of_mem _ h2)
      · exact Or.inr (h1 ▸ List.mem_cons_self d ds)
      · rcases ih false h1 with h2 | h2
        · exact Or.inl h2
        · exact Or.inr (List.mem_cons_of_mem _ h2)

theorem collapseWsAux_ws_space {c : Char} {l : List Char} :
    ∀ b : Bool, c ∈ collapseWsAux b l → isPySpace c = true → c = ' ' := by
  induction l with
  | nil => intro b h _; cases b <;> simp [collapseWsAux] at h
  | cons d ds ih =>
    intro b h hws
    by_cases hd : isPySpace d = true
    · cases b with
      | true =>
        simp only [collapseWsAux, hd, if_true] at h
        exact ih true h hws
      | false =>
        simp only [collapseWsAux, hd, if_true] at h
        rcases List.mem_cons.mp h with h1 | h1
        · exact h1
        · exact ih true h1 hws
    · have hd' : isPySpace d = false := by simpa using hd
      cases b <;> simp only [collapseWsAux, hd', if_false, Bool.false_eq_true] at h <;>
        rcases List.mem_cons.mp h with h1 | h1
      · exact absurd hws (by simp [h1, hd'])
      · exact ih false h1 hws
      · exact absurd hws (by simp [h1, hd'])
      · exact ih false h1 hws

theorem headNoWs_collapseWsAux_true (l : List Char) :
    HeadNoWs (collapseWsAux true l) := by
  induction l with
  | nil => intro c hc; simp [collapseWsAux] at hc
  | cons d ds ih =>
    by_cases hd : isPySpace d = true
    · simpa [collapseWsAux, hd] using ih
    · have hd' : isPySpace d = false := by simpa using hd
      intro c hc
      simp only [collapseWsAux, hd', if_false, Bool.false_eq_true, List.head?_cons,
        Option.mem_def, Option.some.injEq] at hc
      exact hc ▸ hd'

theorem noWsRun_collapseWsAux (l : List Char) :
    ∀ b : Bool, NoWsRun (collapseWsAux b l) := by
  induction l with
  | nil => intro b; cases b <;> exact List.chain'_nil
  | cons d ds ih =>
    intro b
    by_cases hd : isPySpace d = true
    · cases b with
      | true => simpa [collapseWsAux, hd] using ih true
      | false =>
        simp only [collapseWsAux, hd, if_true]
        refine List.chain'_cons'.mpr ⟨?_, ih true⟩
        intro c hc
        exact Or.inr (headNoWs_collapseWsAux_true ds c hc)
    · have hd' : isPySpace d = false := by simpa using hd
      have step : NoWsRun (d :: collapseWsAux false ds) := by
        refine List.chain'_cons'.mpr ⟨?_, ih false⟩
        intro c _
        exact Or.inl hd'
      cases b <;> simpa [collapseWsAux, hd'] using step

theorem collapseWsAux_true_eq_false (l : List Char) (h : HeadNoWs l) :
    collapseWsAux true l = collapseWsAux false l := by
  cases l with
  | nil => rfl
  | cons d ds =>
    have hd : isPySpace d = false := h d rfl
    simp [collapseWsAux, hd]

theorem collapseWsAux_id (l : List Char)
    (h2 : ∀ c ∈ l, isPySpace c = true → c = ' ')
    (h3 : NoWsRun l) : collapseWsAux false l = l := by
  induction l with
  | nil => rfl
  | cons d ds ih =>
    have h3' := List.chain'_cons'.mp h3
    by_cases hd : isPySpace d = true
    · have hds : HeadNoWs ds := by
        intro c hc
        rcases h3'.1 c hc with h | h
        · rw [hd] at h; cases h
        · exact h
      have hd2 : d = ' ' := h2 d (List.mem_cons_self d ds) hd
      simp only [collapseWsAux, hd, if_true]
      rw [collapseWsAux_true_eq_false ds hds,
        ih (fun c hc hw => h2 c (List.mem_cons_of_mem _ hc) hw) h3'.2, hd2]
    · have hd' : isPySpace d = false := by simpa using hd
      simp only [collapseWsAux, hd', if_false, Bool.false_eq_true]
      rw [ih (fun c hc hw => h2 c (List.mem_cons_of_mem _ hc) hw) h3'.2]

theorem headNoWs_dropWhile (l : List Char) :
    HeadNoWs (l.dropWhile isPySpace) := by
  induction l with
  | nil => intro c hc; simp at hc
  | cons d ds ih =>
    by_cases hd : isPySpace d = true
    · simpa [List.dropWhile_cons, hd] using ih
    · have hd' : isPySpace d = false := by simpa using hd
      intro c hc
      simp only [List.dropWhile_cons, hd', Bool.false_eq_true, if_false,
        List.head?_cons, Option.mem_def, Option.some.injEq] at hc
      exact hc ▸ hd'

theorem dropWhile_eq_self_of_headNoWs (l : List Char) (h : HeadNoWs l) :
    l.dropWhile isPySpace = l := by
  cases l with
  | nil => rfl
  | cons d ds => simp [List.dropWhile_cons, h d rfl]

theorem pyStrip_eq_self (l : List Char) (h1 : HeadNoWs l)
    (h2 : HeadNoWs l.reverse) : pyStrip l = l := by
  unfold pyStrip
  rw [dropWhile_eq_self_of_headNoWs l h1,
    dropWhile_eq_self_of_headNoWs l.reverse h2, List.reverse_reverse]

theorem headNoWs_pyStrip_reverse (l : List Char) :
    HeadNoWs (pyStrip l).reverse := by
  unfold pyStrip
  rw [List.reverse_reverse]
  exact headNoWs_dropWhile _

theorem headNoWs_pyStrip (l : List Char) : HeadNoWs (pyStrip l) := by
  intro c hc
  unfold pyStrip at hc
  simp only [Option.mem_def, List.head?_reverse] at hc
  set X := l.dropWhile isPySpace with hX
  set Y := X.reverse.dropWhile isPySpace with hY
  have hne : Y ≠ [] := by
    intro hnil
    rw [hnil] at hc
    simp at hc
  obtain ⟨t, ht⟩ := List.dropWhile_suffix (l := X.reverse) isPySpace
  have hlast : Y.getLast? = X.reverse.getLast? := by
    rw [← ht]
    exact (List.getLast?_append_of_ne_nil t hne).symm
  rw [hlast, List.getLast?_reverse] at hc
  exact headNoWs_dropWhile l c hc

theorem clean_text_allowed (l : List Char) :
    ∀ c ∈ clean_text l, isAllowedChar c = true := by
  intro c hc
  unfold clean_text at hc
  by_cases hl : l.isEmpty = true
  · simp [hl] at hc
  · simp only [hl, Bool.false_eq_true, if_false] at hc
    exact (List.mem_filter.mp (mem_pyStrip hc)).2

theorem clean_text_ws_space (l : List Char) :
    ∀ c ∈ clean_text l, isPySpace c = true → c = ' ' := by
  intro c hc hws
  unfold clean_text at hc
  by_cases hl : l.isEmpty = true
  · simp [hl] at hc
  · simp only [hl, Bool.false_eq_true, if_false] at hc
    have := (List.mem_filter.mp (mem_pyStrip hc)).1
    exact collapseWsAux_ws_space false this hws

theorem clean_text_stripped (l : List Char) :
    HeadNoWs (clean_text l) ∧ HeadNoWs (clean_text l).reverse := by
  unfold clean_text
  by_cases hl : l.isEmpty = true
  · refine ⟨?_, ?_⟩ <;> simp [hl] <;> intro c hc <;> simp at hc
  · simp only [hl, Bool.false_eq_true, if_false]
    exact ⟨headNoWs_pyStrip _, headNoWs_pyStrip_reverse _⟩

theorem clean_text_eq_of_allowed (l : List Char)
    (h : ∀ c ∈ l, isAllowedChar c = true) :
    clean_text l = pyStrip (collapseWs l) := by
  unfold clean_text
  by_cases hl : l.isEmpty = true
  · have : l = [] := by simpa using hl
    subst this
    rfl
  · simp only [hl, Bool.false_eq_true, if_false]
    rw [List.filter_eq_self.mpr]
    intro c hc
    rcases mem_collapseWsAux false hc with h1 | h1
    · rw [h1]; decide
    · exact h c h1

theorem noWsRun_clean_of_allowed (l : List Char)
    (h : ∀ c ∈ l, isAllowedChar c = true) : NoWsRun (clean_text l) := by
  rw [clean_text_eq_of_allowed l h]
  exact List.Chain'.infix (noWsRun_collapseWsAux l false) (pyStrip_contiguous _)

theorem clean_text_id (l : List Char)
    (h1 : ∀ c ∈ l, isAllowedChar c = true)
    (h2 : ∀ c ∈ l, isPySpace c = true → c = ' ')
    (h3 : NoWsRun l)
    (h4 : HeadNoWs l) (h5 : HeadNoWs l.reverse) :
    clean_text l = l := by
  unfold clean_text
  by_cases hl : l.isEmpty = true
  · simp only [hl, if_true]
    exact (by simpa using hl : l = []).symm
  · simp only [hl, Bool.false_eq_true, if_false]
    rw [show collapseWs l = l from collapseWsAux_id l h2 h3,
      List.filter_eq_self.mpr h1, pyStrip_eq_self l h4 h5]

theorem clean_clean_of_allowed (l : List Char)
    (h : ∀ c ∈ l, isAllowedChar c = true) :
    clean_text (clean_text l) = clean_text l :=
  clean_text_id _ (clean_text_allowed l) (clean_text_ws_space l)
    (noWsRun_clean_of_allowed l h) (clean_text_stripped l).1
    (clean_text_stripped l).2

theorem clean_text_triple (l : List Char) :
    clean_text (clean_text (clean_text l)) = clean_text (clean_text l) :=
  clean_clean_of_allowed (clean_text l) (clean_text_allowed l)

/-- C2, counterexample: on the input of letter a, space, at-sign, space,
letter b, the cleaner first collapses whitespace and only then deletes the
at-sign, leaving two adjacent spaces; a second application removes them, so
the claimed run-freeness and idempotence both fail at this input. -/
theorem C2_counterexample :
    ¬ NoWsRun (clean_text ['a', ' ', '@', ' ', 'b']) ∧
      clean_text (clean_text ['a', ' ', '@', ' ', 'b']) ≠
        clean_text ['a', ' ', '@', ' ', 'b'] := by
  constructor <;> decide

/-- C2, amended: for every input (absent input is the empty list) the output
of clean_text contains no character outside the allow-list; applying
clean_text twice is idempotent; and on inputs made only of allowed
characters the single application already has no run of two or more
whitespace characters and is idempotent. Runs of spaces can survive one
application only where deleting a disallowed run merged the surrounding
whitespace. -/
theorem C2_amended (l : List Char) :
    (∀ c ∈ clean_text l, isAllowedChar c = true) ∧
    clean_text (clean_text (clean_text l)) = clean_text (clean_text l) ∧
    ((∀ c ∈ l, isAllowedChar c = true) →
      NoWsRun (clean_text l) ∧ clean_text (clean_text l) = clean_text l) :=
  ⟨clean_text_allowed l, clean_text_triple l,
    fun h => ⟨noWsRun_clean_of_allowed l h, clean_clean_of_allowed l h⟩⟩

theorem collectContent_eq_nil (stop : Elem) (l : List Elem)
    (h : ∀ e ∈ l.takeWhile (fun e => decide (e ≠ stop)),
      e.name = "p" → (clean_text e.text.data).length ≤ 50) :
    collectContent stop l = [] := by
  induction l with
  | nil => rfl
  | cons e rest ih =>
    by_cases he : e = stop
    · simp [collectContent, he]
    · have htake : (e :: rest).takeWhile (fun e => decide (e ≠ stop)) =
          e :: rest.takeWhile (fun e => decide (e ≠ stop)) := by
        simp [List.takeWhile_cons, he]
      have hmem : e ∈ (e :: rest).takeWhile (fun e => decide (e ≠ stop)) := by
        rw [htake]
        exact List.mem_cons_self e _
      have hrest : ∀ x ∈ rest.takeWhile (fun e => decide (e ≠ stop)),
          x.name = "p" → (clean_text x.text.data).length ≤ 50 := by
        intro x hx hxp
        refine h x ?_ hxp
        rw [htake]
        exact List.mem_cons_of_mem _ hx
      by_cases hp : e.name = "p"
      · have hlen := h e hmem hp
        have hgt : ¬ (clean_text e.text.data).length > 50 := by omega
        simp only [collectContent, if_neg he, hp, beq_self_eq_true, if_true,
          decide_eq_false hgt, Bool.and_false, Bool.false_eq_true, if_false]
        exact ih hrest
      · simp only [collectContent, if_neg he]
        have hp' : (e.name == "p") = false := by
          simpa using hp
        simp only [hp', Bool.false_eq_true, if_false]
        exact ih hrest

theorem contentAt_eq_nil (doc : List Elem) (markers : List (Nat × Elem))
    (k pos : Nat)
    (h : ∀ e ∈ markerScope doc markers k pos,
      e.name = "p" → (clean_text e.text.data).length ≤ 50) :
    contentAt doc markers k pos = [] := by
  unfold contentAt
  unfold markerScope at h
  cases hm : markers.get? (k + 1) with
  | none => rfl
  | some nxt =>
    rw [hm] at h
    exact collectContent_eq_nil nxt.2 _ h

theorem mem_chaptersFrom (doc : List Elem) (orig : List (Nat × Elem)) :
    ∀ (ms : List (Nat × Elem)) (k0 : Nat) (ch : Chapter),
      ch ∈ chaptersFrom doc orig k0 ms →
      ∃ j pos m, ms.get? j = some (pos, m) ∧ ch.numero = k0 + j + 1 ∧
        contentAt doc orig (k0 + j) pos ≠ [] ∧
        ch.titulo = clean_text m.text.data := by
  intro ms
  induction ms with
  | nil =>
    intro k0 ch h
    simp [chaptersFrom] at h
  | cons pm rest ih =>
    intro k0 ch h
    obtain ⟨pos, m⟩ := pm
    by_cases hc : (contentAt doc orig k0 pos).isEmpty = true
    · simp only [chaptersFrom, hc, if_true] at h
      obtain ⟨j, pos', m', h1, h2, h3, h4⟩ := ih (k0 + 1) ch h
      refine ⟨j + 1, pos', m', by simpa using h1, by omega, ?_, h4⟩
      have harith : k0 + 1 + j = k0 + (j + 1) := by omega
      rw [← harith]
      exact h3
    · simp only [chaptersFrom, hc, Bool.false_eq_true, if_false] at h
      rcases List.mem_cons.mp h with rfl | hm2
      · refine ⟨0, pos, m, rfl, rfl, ?_, rfl⟩
        intro hnil
        rw [Nat.add_zero] at hnil
        rw [hnil] at hc
        simp at hc
      · obtain ⟨j, pos', m', h1, h2, h3, h4⟩ := ih (k0 + 1) ch hm2
        refine ⟨j + 1, pos', m', by simpa using h1, by omega, ?_, h4⟩
        have harith : k0 + 1 + j = k0 + (j + 1) := by omega
        rw [← harith]
        exact h3

theorem chaptersFrom_numero_gt (doc : List Elem) (orig : List (Nat × Elem))
    (ms : List (Nat × Elem)) (k0 : Nat) (ch : Chapter)
    (h : ch ∈ chaptersFrom doc orig k0 ms) : k0 < ch.numero := by
  obtain ⟨j, pos, m, h1, h2, h3, h4⟩ := mem_chaptersFrom doc orig ms k0 ch h
  omega

theorem chaptersFrom_pairwise (doc : List Elem) (orig : List (Nat × Elem)) :
    ∀ (ms : List (Nat × Elem)) (k0 : Nat),
      List.Pairwise (fun c1 c2 : Chapter => c1.numero < c2.numero)
        (chaptersFrom doc orig k0 ms) := by
  intro ms
  induction ms with
  | nil => intro k0; simp [chaptersFrom]
  | cons pm rest ih =>
    intro k0
    obtain ⟨pos, m⟩ := pm
    by_cases hc : (contentAt doc orig k0 pos).isEmpty = true
    · simpa only [chaptersFrom, hc, if_true] using ih (k0 + 1)
    · simp only [chaptersFrom, hc, Bool.false_eq_true, if_false]
      refine List.Pairwise.cons ?_ (ih (k0 + 1))
      intro ch hch
      exact chaptersFrom_numero_gt doc orig rest (k0 + 1) ch hch

theorem extract_chapters_pairwise (doc : List Elem) :
    List.Pairwise (fun c1 c2 : Chapter => c1.numero < c2.numero)
      (extract_chapters doc) := by
  unfold extract_chapters
  by_cases hm : (markersOf doc).isEmpty = true
  · simp only [hm, if_true]
    unfold fallbackChapters
    by_cases hc : ((doc.filter fun e =>
        e.name == "p" && !(pyStrip e.text.data).isEmpty).map
          fun e => e.text.data).isEmpty = true
    · simp [hc]
    · simp [hc]
  · simp only [hm, Bool.false_eq_true, if_false]
    exact chaptersFrom_pairwise doc (markersOf doc) (markersOf doc) 0

/-- C1: evidence at the failing input. The document holds exactly one
marker, followed by a paragraph whose cleaned text is longer than 50
characters, yet segmentation yields no chapter at all: the content walk for
the final marker never runs, so the marker is dropped instead of collecting
content to the document end. -/
theorem C1_code_eval :
    (markersOf c1doc).length = 1 ∧
    (∃ e ∈ c1doc, e.name = "p" ∧ (clean_text e.text.data).length > 50) ∧
    extract_chapters c1doc = [] := by
  refine ⟨by decide, ?_, by decide⟩
  decide

/-- C5: a marker whose scope up to the next marker (or the document end)
holds only paragraphs of cleaned length at most 50 yields no chapter: it is
dropped, not emitted empty. Every emitted chapter carries as number the
one-based position of its marker among all markers found, dropped markers
included, and its title is the cleaned marker text, so dropped markers
leave gaps in the numbering. -/
theorem C5_dropped_marker (doc : List Elem) (k pos : Nat) (m : Elem)
    (hk : (markersOf doc).get? k = some (pos, m))
    (hsmall : ∀ e ∈ markerScope doc (markersOf doc) k pos,
      e.name = "p" → (clean_text e.text.data).length ≤ 50) :
    (∀ ch ∈ extract_chapters doc, ch.numero ≠ k + 1) ∧
    (∀ ch ∈ extract_chapters doc, ∃ j, ∃ hj : j < (markersOf doc).length,
      ch.numero = j + 1 ∧
      ch.titulo = clean_text ((markersOf doc).get ⟨j, hj⟩).2.text.data) := by
  have hne : (markersOf doc).isEmpty = false := by
    cases hmm : markersOf doc with
    | nil => rw [hmm] at hk; simp at hk
    | cons a b => simp
  have hext : extract_chapters doc =
      chaptersFrom doc (markersOf doc) 0 (markersOf doc) := by
    unfold extract_chapters
    simp [hne]
  constructor
  · intro ch hch heq
    rw [hext] at hch
    obtain ⟨j, pos', m', h1, h2, h3, h4⟩ :=
      mem_chaptersFrom doc (markersOf doc) (markersOf doc) 0 ch hch
    have hj : j = k := by omega
    rw [hj] at h1 h3
    rw [hk] at h1
    have hpos : pos = pos' := congrArg Prod.fst (Option.some.inj h1)
    apply h3
    rw [Nat.zero_add, ← hpos]
    exact contentAt_eq_nil doc (markersOf doc) k pos hsmall
  · intro ch hch
    rw [hext] at hch
    obtain ⟨j, pos', m', h1, h2, h3, h4⟩ :=
      mem_chaptersFrom doc (markersOf doc) (markersOf doc) 0 ch hch
    obtain ⟨hj, hget⟩ := List.get?_eq_some.mp h1
    refine ⟨j, hj, by omega, ?_⟩
    rw [hget]
    exact h4

/-- C5 witness: in the three-marker document the first marker is followed
only by a short paragraph; no emitted chapter is numbered 1, every emitted
chapter keeps its marker position as number, and the output is the single
chapter numbered 2. -/
theorem C5_dropped_marker_witness :
    (∀ ch ∈ extract_chapters gapDoc, ch.numero ≠ 0 + 1) ∧
    (∀ ch ∈ extract_chapters gapDoc, ∃ j, ∃ hj : j < (markersOf gapDoc).length,
      ch.numero = j + 1 ∧
      ch.titulo = clean_text ((markersOf gapDoc).get ⟨j, hj⟩).2.text.data) :=
  C5_dropped_marker gapDoc 0 0 ⟨"h2", "Capítulo 1."⟩ (by decide) (by decide)

/-- C7, counterexample: with no markers, a paragraph of raw text made only
of at-signs passes the raw-text filter but cleans to the empty string, so
the joined content starts with a spurious blank-line separator instead of
skipping the paragraph as the claim states. -/
theorem C7_counterexample :
    extract_chapters c7doc =
      [⟨1, "Texto completo".data,
        '\n' :: '\n' :: "hello there friend".data⟩] ∧
    ('\n' :: '\n' :: "hello there friend".data : List Char) ≠
      "hello there friend".data := by
  constructor <;> decide

/-- C7, amended: with zero markers and at least one paragraph whose raw
text is not whitespace-only, segmentation yields exactly one chapter
numbered 1 titled with the full-text title, whose content joins the cleaned
text of every paragraph whose raw text is not whitespace-only with
blank-line separators; whitespace-only paragraphs are skipped, while
paragraphs with nonempty raw text but empty cleaned text contribute empty
fragments to the join. -/
theorem C7_amended (doc : List Elem) (h1 : markersOf doc = [])
    (h2 : ∃ e ∈ doc, e.name = "p" ∧ pyStrip e.text.data ≠ []) :
    extract_chapters doc =
      [⟨1, "Texto completo".data, specFallbackContent doc⟩] := by
  unfold extract_chapters
  rw [h1]
  simp only [List.isEmpty_nil, if_true]
  unfold fallbackChapters specFallbackContent
  obtain ⟨e, he, hp, hs⟩ := h2
  have hmem : e ∈ doc.filter fun e => e.name == "p" && !(pyStrip e.text.data).isEmpty := by
    rw [List.mem_filter]
    refine ⟨he, ?_⟩
    simp [hp, hs]
  have hnonempty : ((doc.filter fun e =>
      e.name == "p" && !(pyStrip e.text.data).isEmpty).map
        fun e => e.text.data).isEmpty = false := by
    cases hl : doc.filter fun e => e.name == "p" && !(pyStrip e.text.data).isEmpty with
    | nil => rw [hl] at hmem; simp at hmem
    | cons a b => simp [hl]
  simp only [hnonempty, Bool.false_eq_true, if_false, List.map_map]
  rfl

/-- C7 witness: the amended statement at the two-paragraph document. -/
theorem C7_amended_witness :
    extract_chapters c7doc =
      [⟨1, "Texto completo".data, specFallbackContent c7doc⟩] :=
  C7_amended c7doc (by decide) (by decide)

theorem save_to_database_dup (db : DB) (t a u : String) (now : Nat)
    (chs : List Chapter)
    (hurl : (db.libros.any fun b => b.url == u) = true) :
    save_to_database db t a u now chs = (db, false) := by
  unfold save_to_database
  rw [if_pos hurl]

theorem insertCaps_none_of_clash :
    ∀ (chs : List Chapter) (existing : List ChapterRow) (lid nid : Nat),
      (∃ ch ∈ chs, ∃ r ∈ existing, r.libroId = lid ∧ r.numero = ch.numero) →
      insertCaps existing lid nid chs = none := by
  intro chs
  induction chs with
  | nil =>
    intro existing lid nid h
    obtain ⟨ch, hch, _⟩ := h
    simp at hch
  | cons c rest ih =>
    intro existing lid nid h
    by_cases hdup : (existing.any fun r => r.libroId == lid && r.numero == c.numero) = true
    · simp only [insertCaps, hdup, if_true]
    · obtain ⟨ch, hch, r, hr, hlid, hnum⟩ := h
      have hch' : ch ∈ rest := by
        rcases List.mem_cons.mp hch with rfl | hm
        · exact absurd (List.any_eq_true.mpr ⟨r, hr, by simp [hlid, hnum]⟩) hdup
        · exact hm
      have hrec : insertCaps
          (existing ++ [⟨nid, lid, c.numero, c.titulo, c.contenido⟩])
          lid (nid + 1) rest = none :=
        ih _ lid (nid + 1) ⟨ch, hch', r, List.mem_append_left _ hr, hlid, hnum⟩
      simp only [insertCaps, hdup, Bool.false_eq_true, if_false, hrec]

theorem insertCaps_none_of_dup :
    ∀ (chs : List Chapter) (existing : List ChapterRow) (lid nid : Nat),
      hasDupNumero chs = true → insertCaps existing lid nid chs = none := by
  intro chs
  induction chs with
  | nil =>
    intro existing lid nid h
    simp [hasDupNumero] at h
  | cons c rest ih =>
    intro existing lid nid h
    rw [hasDupNumero, Bool.or_eq_true] at h
    by_cases hdup : (existing.any fun r => r.libroId == lid && r.numero == c.numero) = true
    · simp only [insertCaps, hdup, if_true]
    · rcases h with h | h
      · obtain ⟨d, hd, hdn⟩ := List.any_eq_true.mp h
        have hdn' : d.numero = c.numero := by simpa using hdn
        have hrec : insertCaps
            (existing ++ [⟨nid, lid, c.numero, c.titulo, c.contenido⟩])
            lid (nid + 1) rest = none := by
          refine insertCaps_none_of_clash rest _ lid (nid + 1)
            ⟨d, hd, ⟨nid, lid, c.numero, c.titulo, c.contenido⟩,
              List.mem_append_right _ (by simp), rfl, ?_⟩
          simpa using hdn'.symm
        simp only [insertCaps, hdup, Bool.false_eq_true, if_false, hrec]
      · have hrec : insertCaps
            (existing ++ [⟨nid, lid, c.numero, c.titulo, c.contenido⟩])
            lid (nid + 1) rest = none := ih _ lid (nid + 1) h
        simp only [insertCaps, hdup, Bool.false_eq_true, if_false, hrec]

theorem insertCaps_some_spec :
    ∀ (chs : List Chapter) (existing : List ChapterRow) (lid nid : Nat)
      (rows : List ChapterRow) (n2 : Nat),
      insertCaps existing lid nid chs = some (rows, n2) →
      rows.map (fun r => r.numero) = chs.map (fun c => c.numero) ∧
      rows.length = chs.length := by
  intro chs
  induction chs with
  | nil =>
    intro existing lid nid rows n2 h
    simp only [insertCaps, Option.some.injEq, Prod.mk.injEq] at h
    rw [← h.1]
    simp
  | cons c rest ih =>
    intro existing lid nid rows n2 h
    by_cases hdup : (existing.any fun r => r.libroId == lid && r.numero == c.numero) = true
    · simp [insertCaps, hdup] at h
    · simp only [insertCaps, hdup, Bool.false_eq_true, if_false] at h
      cases hrec : insertCaps
          (existing ++ [⟨nid, lid, c.numero, c.titulo, c.contenido⟩])
          lid (nid + 1) rest with
      | none => rw [hrec] at h; cases h
      | some p =>
        obtain ⟨rows', n2'⟩ := p
        rw [hrec] at h
        simp only [Option.some.injEq, Prod.mk.injEq] at h
        obtain ⟨hspec1, hspec2⟩ := ih _ lid (nid + 1) rows' n2' hrec
        rw [← h.1]
        constructor
        · rw [List.map_cons, hspec1, List.map_cons]
        · rw [List.length_cons, hspec2, List.length_cons]

theorem insertCaps_some_of_ok :
    ∀ (chs : List Chapter) (existing : List ChapterRow) (lid nid : Nat),
      hasDupNumero chs = false →
      (∀ r ∈ existing, r.libroId = lid → r.numero ∉ chs.map fun c => c.numero) →
      ∃ rows, insertCaps existing lid nid chs = some (rows, nid + chs.length) ∧
        rows.length = chs.length := by
  intro chs
  induction chs with
  | nil =>
    intro existing lid nid _ _
    exact ⟨[], by simp [insertCaps], rfl⟩
  | cons c rest ih =>
    intro existing lid nid hn hfr
    rw [hasDupNumero, Bool.or_eq_false_iff] at hn
    have hdup : (existing.any fun r => r.libroId == lid && r.numero == c.numero) = false := by
      by_contra hcon
      rw [Bool.not_eq_false] at hcon
      obtain ⟨r, hr, hrp⟩ := List.any_eq_true.mp hcon
      rw [Bool.and_eq_true, beq_iff_eq, beq_iff_eq] at hrp
      exact hfr r hr hrp.1 (by simp [hrp.2])
    have hfr' : ∀ r ∈ existing ++ [⟨nid, lid, c.numero, c.titulo, c.contenido⟩],
        r.libroId = lid → r.numero ∉ rest.map fun ch => ch.numero := by
      intro r hr hl
      rcases List.mem_append.mp hr with hmem | hmem
      · have := hfr r hmem hl
        rw [List.map_cons] at this
        intro hcon
        exact this (List.mem_cons_of_mem _ hcon)
      · have hreq : r = ⟨nid, lid, c.numero, c.titulo, c.contenido⟩ := by
          simpa using hmem
      -- the fresh row carries the head number, absent from the tail numbers
        subst hreq
        intro hcon
        obtain ⟨d, hd, hdn⟩ := List.mem_map.mp hcon
        have : (rest.any fun dd => dd.numero == c.numero) = true :=
          List.any_eq_true.mpr ⟨d, hd, by simp [hdn]⟩
        rw [hn.1] at this
        cases this
    obtain ⟨rows, hrows, hlen⟩ := ih _ lid (nid + 1) hn.2 hfr'
    refine ⟨⟨nid, lid, c.numero, c.titulo, c.contenido⟩ :: rows, ?_, by simp [hlen]⟩
    have harith : nid + 1 + rest.length = nid + (c :: rest).length := by
      rw [List.length_cons]
      omega
    rw [← harith]
    simp only [insertCaps, hdup, Bool.false_eq_true, if_false, hrows]

/-- C3: a library failure during the chapter-insert loop, realised by a
duplicate chapter number violating the unique constraint, rolls the whole
transaction back: no book or chapter row remains, the store is exactly its
pre-call state, and save returns false instead of raising. -/
theorem C3_rollback (db : DB) (t a u : String) (now : Nat)
    (chs : List Chapter) (hdup : hasDupNumero chs = true) :
    save_to_database db t a u now chs = (db, false) := by
  unfold save_to_database
  by_cases hurl : (db.libros.any fun b => b.url == u) = true
  · rw [if_pos hurl]
  · rw [if_neg hurl,
      insertCaps_none_of_dup chs db.capitulos db.nextLibroId db.nextCapId hdup]

/-- C3 witness: two chapters sharing number 1 trigger the constraint
violation; the empty store is returned unchanged with result false. -/
theorem C3_rollback_witness :
    hasDupNumero [⟨1, [], []⟩, ⟨1, [], []⟩] = true ∧
    save_to_database emptyDB "t" "a" "u" 0 [⟨1, [], []⟩, ⟨1, [], []⟩] =
      (emptyDB, false) :=
  ⟨by decide, C3_rollback emptyDB "t" "a" "u" 0 _ (by decide)⟩

/-- C4: with a fresh source url and an insertable chapter batch, the first
save returns true and adds one book row and one row per chapter; a second
save with the same url returns false and leaves the store untouched, the
duplicate being detected by the url check before any chapter write. -/
theorem C4_duplicate_url (db : DB) (t a t2 a2 u : String) (now now2 : Nat)
    (chs chs2 : List Chapter)
    (hurl : (db.libros.any fun b => b.url == u) = false)
    (hnodup : hasDupNumero chs = false)
    (hfresh : ∀ r ∈ db.capitulos, r.libroId ≠ db.nextLibroId) :
    (save_to_database db t a u now chs).2 = true ∧
    (save_to_database db t a u now chs).1.libros.length = db.libros.length + 1 ∧
    (save_to_database db t a u now chs).1.capitulos.length =
      db.capitulos.length + chs.length ∧
    save_to_database (save_to_database db t a u now chs).1 t2 a2 u now2 chs2 =
      ((save_to_database db t a u now chs).1, false) := by
  obtain ⟨rows, hrows, hlen⟩ :=
    insertCaps_some_of_ok chs db.capitulos db.nextLibroId db.nextCapId hnodup
      (fun r hr hl => absurd hl (hfresh r hr))
  have hsave : save_to_database db t a u now chs =
      ({ libros := db.libros ++ [⟨db.nextLibroId, t, a, now, u⟩],
         capitulos := db.capitulos ++ rows,
         nextLibroId := db.nextLibroId + 1,
         nextCapId := db.nextCapId + chs.length }, true) := by
    unfold save_to_database
    rw [if_neg (by simp [hurl]), hrows]
  have hmem : (⟨db.nextLibroId, t, a, now, u⟩ : BookRow) ∈
      db.libros ++ [⟨db.nextLibroId, t, a, now, u⟩] :=
    List.mem_append_right _ (by simp)
  refine ⟨by rw [hsave], by rw [hsave]; simp, by rw [hsave]; simp [hlen], ?_⟩
  have hdup2 : ((save_to_database db t a u now chs).1.libros.any
      fun b => b.url == u) = true := by
    rw [hsave]
    exact (@List.any_eq_true BookRow (fun b => b.url == u)
      (db.libros ++ [⟨db.nextLibroId, t, a, now, u⟩])).mpr
      ⟨⟨db.nextLibroId, t, a, now, u⟩, hmem, by simp⟩
  exact save_to_database_dup _ t2 a2 u now2 chs2 hdup2

/-- C4 witness: the double save at the empty store with one chapter. -/
theorem C4_duplicate_url_witness :
    (save_to_database emptyDB "t" "a" "u" 0 [⟨1, [], []⟩]).2 = true ∧
    (save_to_database emptyDB "t" "a" "u" 0 [⟨1, [], []⟩]).1.libros.length =
      emptyDB.libros.length + 1 ∧
    (save_to_database emptyDB "t" "a" "u" 0 [⟨1, [], []⟩]).1.capitulos.length =
      emptyDB.capitulos.length + ([(⟨1, [], []⟩ : Chapter)]).length ∧
    save_to_database (save_to_database emptyDB "t" "a" "u" 0 [⟨1, [], []⟩]).1
        "t" "a" "u" 9 [⟨1, [], []⟩] =
      ((save_to_database emptyDB "t" "a" "u" 0 [⟨1, [], []⟩]).1, false) :=
  C4_duplicate_url emptyDB "t" "a" "t" "a" "u" 0 9 [⟨1, [], []⟩] [⟨1, [], []⟩]
    (by decide) (by decide) (by decide)

/-- C6, counterexample: the gap document persists successfully, yet the
stored chapter numbers for the book are the single number 2, not the
gapless sequence starting at 1 that the claim demands. -/
theorem C6_counterexample :
    (extract_book emptyDB (some gapDoc) "t" "a" "u" 0).2 = true ∧
    ((extract_book emptyDB (some gapDoc) "t" "a" "u" 0).1.capitulos.map
      fun r => r.numero) = [2] ∧
    ([2] : List Nat) ≠ List.range' 1 1 := by
  refine ⟨by decide, by decide, by decide⟩

/-- C6, amended: whenever extraction persists a book, the chapter rows
written for it carry, in insertion order, exactly the segmenter's numbers,
and those numbers are strictly increasing in marker-discovery order; gaps
may remain where markers were dropped. -/
theorem C6_amended (doc : List Elem) (db : DB) (t a u : String) (now : Nat)
    (db2 : DB)
    (h : extract_book db (some doc) t a u now = (db2, true)) :
    (db2.capitulos.drop db.capitulos.length).map (fun r => r.numero) =
      (extract_chapters doc).map (fun c => c.numero) ∧
    List.Pairwise (fun x y : Nat => x < y)
      ((extract_chapters doc).map fun c => c.numero) := by
  constructor
  · have h' : (if (extract_chapters doc).isEmpty = true then (db, false)
        else save_to_database db t a u now (extract_chapters doc)) = (db2, true) := h
    by_cases hemp : (extract_chapters doc).isEmpty = true
    · rw [if_pos hemp] at h'
      exact absurd (congrArg Prod.snd h') (by simp)
    · rw [if_neg hemp] at h'
      unfold save_to_database at h'
      by_cases hurl : (db.libros.any fun b => b.url == u) = true
      · rw [if_pos hurl] at h'
        exact absurd (congrArg Prod.snd h') (by simp)
      · rw [if_neg hurl] at h'
        cases hrec : insertCaps db.capitulos db.nextLibroId db.nextCapId
            (extract_chapters doc) with
        | none =>
          rw [hrec] at h'
          exact absurd (congrArg Prod.snd h') (by simp)
        | some p =>
          obtain ⟨rows, n2⟩ := p
          rw [hrec] at h'
          rw [Prod.mk.injEq] at h'
          obtain ⟨hdb2, -⟩ := h'
          rw [← hdb2]
          show ((db.capitulos ++ rows).drop db.capitulos.length).map
            (fun r => r.numero) = _
          rw [List.drop_left]
          exact (insertCaps_some_spec (extract_chapters doc) db.capitulos
            db.nextLibroId db.nextCapId rows n2 hrec).1
  · exact List.pairwise_map.mpr (extract_chapters_pairwise doc)

/-- C6 witness: the amended statement at the gap document over the empty
store. -/
theorem C6_amended_witness :
    (((extract_book emptyDB (some gapDoc) "t" "a" "u" 0).1.capitulos.drop
        emptyDB.capitulos.length).map fun r => r.numero) =
      ((extract_chapters gapDoc).map fun c => c.numero) ∧
    List.Pairwise (fun x y : Nat => x < y)
      ((extract_chapters gapDoc).map fun c => c.numero) :=
  C6_amended gapDoc emptyDB "t" "a" "u" 0
    (extract_book emptyDB (some gapDoc) "t" "a" "u" 0).1 (by decide)

/-- C8: an absent fetch result, and a fetched document that segments to
zero chapters, both short-circuit the pipeline: the result is false and the
store is returned exactly as passed in, persistence never attempted. -/
theorem C8_short_circuit (db : DB) (fetched : Option (List Elem))
    (t a u : String) (now : Nat)
    (h : fetched = none ∨ ∃ doc, fetched = some doc ∧ extract_chapters doc = []) :
    extract_book db fetched t a u now = (db, false) := by
  rcases h with rfl | ⟨doc, rfl, hdoc⟩
  · rfl
  · simp [extract_book, hdoc]

/-- C8 witness: the failed-fetch case at the empty store. -/
theorem C8_short_circuit_witness :
    extract_book emptyDB none "t" "a" "u" 0 = (emptyDB, false) :=
  C8_short_circuit emptyDB none "t" "a" "u" 0 (Or.inl rfl)

/-- C9: saving with an empty chapter batch and a fresh source url still
inserts the book row, carrying the passed timestamp, and returns true; the
chapter table is unchanged. -/
theorem C9_empty_chapters (db : DB) (t a u : String) (now : Nat)
    (hurl : (db.libros.any fun b => b.url == u) = false) :
    save_to_database db t a u now [] =
      ({ libros := db.libros ++ [⟨db.nextLibroId, t, a, now, u⟩],
         capitulos := db.capitulos,
         nextLibroId := db.nextLibroId + 1,
         nextCapId := db.nextCapId }, true) := by
  unfold save_to_database
  rw [if_neg (by simp [hurl])]
  simp only [insertCaps]
  rw [List.append_nil]

/-- C9 witness: the empty batch saved into the empty store. -/
theorem C9_empty_chapters_witness :
    save_to_database emptyDB "t" "a" "u" 7 [] =
      ({ libros := emptyDB.libros ++ [⟨emptyDB.nextLibroId, "t", "a", 7, "u"⟩],
         capitulos := emptyDB.capitulos,
         nextLibroId := emptyDB.nextLibroId + 1,
         nextCapId := emptyDB.nextCapId }, true) :=
  C9_empty_chapters emptyDB "t" "a" "u" 7 (by decide)

/-- C10: a library error raised inside either listing query is caught in
the query itself: list_books and get_book_chapters return the empty
sequence instead of propagating the error. -/
theorem C10_error_swallowed (msg : String) (lid : Nat) :
    list_books (Conn.failed msg) = [] ∧
    get_book_chapters (Conn.failed msg) lid = [] := ⟨rfl, rfl⟩

/-- C2 witness: the amended statement applied at a concrete allowed input. -/
theorem C2_amended_witness :
    (∀ c ∈ clean_text ['a', 'b', ' ', ' ', 'c', '!'], isAllowedChar c = true) ∧
    NoWsRun (clean_text ['a', 'b', ' ', ' ', 'c', '!']) ∧
    clean_text (clean_text ['a', 'b', ' ', ' ', 'c', '!']) =
      clean_text ['a', 'b', ' ', ' ', 'c', '!'] :=
  ⟨(C2_amended ['a', 'b', ' ', ' ', 'c', '!']).1,
    ((C2_amended ['a', 'b', ' ', ' ', 'c', '!']).2.2 (by decide)).1,
    ((C2_amended ['a', 'b', ' ', ' ', 'c', '!']).2.2 (by decide)).2⟩

end BookExtractor
